import Mathlib

/-!
Verification of the JamSync backend's room-membership registry (`src/rooms.js`)
and socket.io event router (`src/server.js`).

The registry is a plain JavaScript object mapping room identifiers to `Set`s of
socket identifiers.  We embed it as an association list with unique keys, each
value being the Set's elements in insertion order.
-/

/-- The in-memory registry of `src/rooms.js`: the module-level object
`const rooms = {}` mapping a room identifier to the set of socket identifiers in
that room.  A JavaScript object has unique keys; a `Set` holds distinct elements
in insertion order, so we represent it as a duplicate-free list. -/
abbrev Registry := List (String × List String)

/-- Property lookup `rooms[roomId]` on the registry object: the value at the
first (hence, with unique keys, only) matching key, or `none` when the key is
absent (`undefined`). -/
def regLookup : Registry → String → Option (List String)
  | [], _ => none
  | (k, v) :: rest, roomId => if k = roomId then some v else regLookup rest roomId

/-- The registry object's enumerable keys (`Object.keys(rooms)`). -/
def regKeys (rs : Registry) : List String :=
  rs.map Prod.fst

/-- `Set.prototype.add`: appends the element unless already present (insertion
order preserved, no duplicates). -/
def setAdd (s : List String) (x : String) : List String :=
  if x ∈ s then s else s ++ [x]

/-- `Set.prototype.delete`: removes the element if present, keeping the order of
the remaining elements. -/
def setDelete (s : List String) (x : String) : List String :=
  s.filter (fun u => u != x)

/-- `addUserToRoom(roomId, socketId)` from `src/rooms.js`:
`if (!rooms[roomId]) rooms[roomId] = new Set(); rooms[roomId].add(socketId);`.
A fresh key is appended at the end of the object's enumeration order. -/
def addUserToRoom (roomId socketId : String) : Registry → Registry
  | [] => [(roomId, [socketId])]
  | (k, v) :: rest =>
    if k = roomId then (k, setAdd v socketId) :: rest
    else (k, v) :: addUserToRoom roomId socketId rest

/-- `removeUserFromRoom(roomId, socketId)` from `src/rooms.js`: if the room
exists, delete the socket from its set, and `delete rooms[roomId]` when the set
becomes empty. -/
def removeUserFromRoom (roomId socketId : String) : Registry → Registry
  | [] => []
  | (k, v) :: rest =>
    if k = roomId then
      if setDelete v socketId = [] then rest
      else (k, setDelete v socketId) :: rest
    else (k, v) :: removeUserFromRoom roomId socketId rest

/-- `getUsersInRoom(roomId)` from `src/rooms.js`:
`rooms[roomId] ? Array.from(rooms[roomId]) : []`. -/
def getUsersInRoom (roomId : String) (rs : Registry) : List String :=
  (regLookup rs roomId).getD []

/-- The lazy-deletion invariant: every room entry present in the registry has a
non-empty membership set. -/
abbrev RegInv (rs : Registry) : Prop :=
  ∀ p ∈ rs, p.2 ≠ []

/-- Well-formedness of a JavaScript-reachable registry (or socket.io room map):
object keys are unique and every value is a duplicate-free `Set`, which is
non-empty. -/
abbrev WF (rs : Registry) : Prop :=
  (regKeys rs).Nodup ∧ ∀ p ∈ rs, p.2.Nodup ∧ p.2 ≠ []

/-- Occurrence count of a participant identifier in a membership sequence. -/
def countS (x : String) : List String → Nat
  | [] => 0
  | y :: rest => (if y = x then 1 else 0) + countS x rest

-- Basic facts about the Set model.

theorem setAdd_mem (s : List String) (x : String) : x ∈ setAdd s x := by
  unfold setAdd
  split
  · assumption
  · simp

theorem setAdd_ne_nil (s : List String) (x : String) : setAdd s x ≠ [] := by
  unfold setAdd
  split
  · rename_i hmem
    intro h
    rw [h] at hmem
    exact absurd hmem (List.not_mem_nil x)
  · simp

theorem setAdd_of_mem {s : List String} {x : String} (h : x ∈ s) : setAdd s x = s := by
  simp [setAdd, h]

theorem setAdd_nodup {s : List String} (h : s.Nodup) (x : String) : (setAdd s x).Nodup := by
  unfold setAdd
  split
  · exact h
  · rename_i hx
    simp [List.nodup_append, h, hx]

theorem mem_setDelete {s : List String} {x y : String} :
    y ∈ setDelete s x ↔ y ∈ s ∧ y ≠ x := by
  simp [setDelete, List.mem_filter]

theorem setDelete_of_not_mem {s : List String} {x : String} (h : x ∉ s) :
    setDelete s x = s := by
  apply List.filter_eq_self.mpr
  intro u hu
  simp only [bne_iff_ne, ne_eq, decide_eq_true_eq]
  exact fun he => h (he ▸ hu)

theorem setDelete_nodup {s : List String} (h : s.Nodup) (x : String) :
    (setDelete s x).Nodup :=
  h.filter _

theorem setDelete_singleton (x : String) : setDelete [x] x = [] := by
  simp [setDelete]

theorem countS_eq_zero {s : List String} {x : String} (h : x ∉ s) : countS x s = 0 := by
  induction s with
  | nil => rfl
  | cons u rest ih =>
    simp only [List.mem_cons, not_or] at h
    simp [countS, Ne.symm h.1, ih h.2]

theorem countS_eq_one {s : List String} {x : String} (hn : s.Nodup) (hm : x ∈ s) :
    countS x s = 1 := by
  induction s with
  | nil => simp at hm
  | cons u rest ih =>
    simp only [List.nodup_cons] at hn
    rcases List.mem_cons.mp hm with rfl | hm'
    · simp [countS, countS_eq_zero hn.1]
    · have hne : u ≠ x := fun he => hn.1 (he ▸ hm')
      simp [countS, hne, ih hn.2 hm']

-- Lookup and key lemmas for the registry operations.

theorem regLookup_eq_none_iff {rs : Registry} {R : String} :
    regLookup rs R = none ↔ R ∉ regKeys rs := by
  induction rs with
  | nil => simp [regLookup, regKeys]
  | cons p rest ih =>
    obtain ⟨k, v⟩ := p
    by_cases hk : k = R
    · subst hk
      simp [regLookup, regKeys]
    · simp [regLookup, hk, regKeys, ih, Ne.symm hk]

theorem regLookup_mem {rs : Registry} {R : String} {v : List String}
    (h : regLookup rs R = some v) : (R, v) ∈ rs := by
  induction rs with
  | nil => simp [regLookup] at h
  | cons p rest ih =>
    obtain ⟨k, w⟩ := p
    by_cases hk : k = R
    · subst hk
      simp [regLookup] at h
      subst h
      exact List.mem_cons_self _ _
    · simp only [regLookup, if_neg hk] at h
      exact List.mem_cons_of_mem _ (ih h)

theorem regLookup_addUserToRoom_ne {roomId sid R : String} (rs : Registry)
    (h : R ≠ roomId) :
    regLookup (addUserToRoom roomId sid rs) R = regLookup rs R := by
  induction rs with
  | nil => simp [addUserToRoom, regLookup, Ne.symm h]
  | cons p rest ih =>
    obtain ⟨k, v⟩ := p
    by_cases hk : k = roomId
    · subst hk
      simp [addUserToRoom, regLookup, Ne.symm h]
    · simp [addUserToRoom, hk, regLookup, ih]

theorem regLookup_removeUserFromRoom_ne {roomId sid R : String} (rs : Registry)
    (h : R ≠ roomId) :
    regLookup (removeUserFromRoom roomId sid rs) R = regLookup rs R := by
  induction rs with
  | nil => simp [removeUserFromRoom]
  | cons p rest ih =>
    obtain ⟨k, v⟩ := p
    by_cases hk : k = roomId
    · subst hk
      by_cases hd : setDelete v sid = []
      · simp [removeUserFromRoom, hd, regLookup, Ne.symm h]
      · simp [removeUserFromRoom, hd, regLookup, Ne.symm h]
    · simp [removeUserFromRoom, hk, regLookup, ih]

theorem addUserToRoom_of_absent {roomId sid : String} {rs : Registry}
    (h : regLookup rs roomId = none) :
    addUserToRoom roomId sid rs = rs ++ [(roomId, [sid])] := by
  induction rs with
  | nil => simp [addUserToRoom]
  | cons p rest ih =>
    obtain ⟨k, v⟩ := p
    by_cases hk : k = roomId
    · subst hk
      simp [regLookup] at h
    · simp only [regLookup, if_neg hk] at h
      simp [addUserToRoom, hk, ih h]

theorem addUserToRoom_append_last {roomId sid : String} {rs : Registry} {v : List String}
    (h : regLookup rs roomId = none) :
    addUserToRoom roomId sid (rs ++ [(roomId, v)]) = rs ++ [(roomId, setAdd v sid)] := by
  induction rs with
  | nil => simp [addUserToRoom]
  | cons p rest ih =>
    obtain ⟨k, w⟩ := p
    by_cases hk : k = roomId
    · subst hk
      simp [regLookup] at h
    · simp only [regLookup, if_neg hk] at h
      simp [addUserToRoom, hk, ih h]

theorem regLookup_append_last {roomId : String} {rs : Registry} {v : List String}
    (h : regLookup rs roomId = none) :
    regLookup (rs ++ [(roomId, v)]) roomId = some v := by
  induction rs with
  | nil => simp [regLookup]
  | cons p rest ih =>
    obtain ⟨k, w⟩ := p
    by_cases hk : k = roomId
    · subst hk
      simp [regLookup] at h
    · simp only [regLookup, if_neg hk] at h
      simp [regLookup, hk, ih h]

theorem removeUserFromRoom_append_singleton {roomId sid : String} {rs : Registry}
    (h : regLookup rs roomId = none) :
    removeUserFromRoom roomId sid (rs ++ [(roomId, [sid])]) = rs := by
  induction rs with
  | nil => simp [removeUserFromRoom, setDelete_singleton]
  | cons p rest ih =>
    obtain ⟨k, w⟩ := p
    by_cases hk : k = roomId
    · subst hk
      simp [regLookup] at h
    · simp only [regLookup, if_neg hk] at h
      simp [removeUserFromRoom, hk, ih h]

theorem regLookup_addUserToRoom_self {roomId sid : String} (rs : Registry) :
    regLookup (addUserToRoom roomId sid rs) roomId =
      some (setAdd (getUsersInRoom roomId rs) sid) := by
  induction rs with
  | nil => simp [addUserToRoom, regLookup, getUsersInRoom, setAdd]
  | cons p rest ih =>
    obtain ⟨k, v⟩ := p
    by_cases hk : k = roomId
    · subst hk
      simp [addUserToRoom, regLookup, getUsersInRoom]
    · simp [addUserToRoom, hk, regLookup, getUsersInRoom, ih]

theorem getUsersInRoom_addUserToRoom_self {roomId sid : String} (rs : Registry) :
    getUsersInRoom roomId (addUserToRoom roomId sid rs) =
      setAdd (getUsersInRoom roomId rs) sid := by
  simp [getUsersInRoom, regLookup_addUserToRoom_self]

theorem setAdd_setAdd (s : List String) (x : String) : setAdd (setAdd s x) x = setAdd s x :=
  setAdd_of_mem (setAdd_mem s x)

theorem addUserToRoom_idem (roomId sid : String) (rs : Registry) :
    addUserToRoom roomId sid (addUserToRoom roomId sid rs) = addUserToRoom roomId sid rs := by
  induction rs with
  | nil => simp [addUserToRoom, setAdd]
  | cons p rest ih =>
    obtain ⟨k, v⟩ := p
    by_cases hk : k = roomId
    · subst hk
      simp [addUserToRoom, setAdd_setAdd]
    · simp [addUserToRoom, hk, ih]

theorem removeUserFromRoom_of_not_mem {roomId sid : String} {rs : Registry}
    (hinv : RegInv rs) (h : sid ∉ getUsersInRoom roomId rs) :
    removeUserFromRoom roomId sid rs = rs := by
  induction rs with
  | nil => rfl
  | cons p rest ih =>
    obtain ⟨k, v⟩ := p
    by_cases hk : k = roomId
    · subst hk
      have hv : sid ∉ v := by
        simpa [getUsersInRoom, regLookup] using h
      have hne : v ≠ [] := hinv (k, v) (List.mem_cons_self _ _)
      simp [removeUserFromRoom, setDelete_of_not_mem hv, hne]
    · have h' : sid ∉ getUsersInRoom roomId rest := by
        simpa [getUsersInRoom, regLookup, hk] using h
      have hinv' : RegInv rest := fun q hq => hinv q (List.mem_cons_of_mem _ hq)
      simp [removeUserFromRoom, hk, ih hinv' h']

theorem getUsersInRoom_nodup {rs : Registry} {roomId : String} (hwf : WF rs) :
    (getUsersInRoom roomId rs).Nodup := by
  unfold getUsersInRoom
  cases hl : regLookup rs roomId with
  | none => simp
  | some v => simpa using (hwf.2 (roomId, v) (regLookup_mem hl)).1

theorem regInv_addUserToRoom {rs : Registry} (hinv : RegInv rs) (roomId sid : String) :
    RegInv (addUserToRoom roomId sid rs) := by
  induction rs with
  | nil =>
    intro p hp
    simp [addUserToRoom] at hp
    subst hp
    simp
  | cons q rest ih =>
    obtain ⟨k, v⟩ := q
    have hrest : RegInv rest := fun q hq => hinv q (List.mem_cons_of_mem _ hq)
    intro p hp
    by_cases hk : k = roomId
    · subst hk
      simp only [addUserToRoom, if_pos rfl] at hp
      rcases List.mem_cons.mp hp with hp1 | hp1
      · rw [hp1]
        exact setAdd_ne_nil v sid
      · exact hrest p hp1
    · simp only [addUserToRoom, if_neg hk] at hp
      rcases List.mem_cons.mp hp with hp1 | hp1
      · rw [hp1]
        exact hinv (k, v) (List.mem_cons_self _ _)
      · exact ih hrest p hp1

theorem regInv_removeUserFromRoom {rs : Registry} (hinv : RegInv rs) (roomId sid : String) :
    RegInv (removeUserFromRoom roomId sid rs) := by
  induction rs with
  | nil =>
    intro p hp
    simp [removeUserFromRoom] at hp
  | cons q rest ih =>
    obtain ⟨k, v⟩ := q
    have hrest : RegInv rest := fun q hq => hinv q (List.mem_cons_of_mem _ hq)
    intro p hp
    by_cases hk : k = roomId
    · subst hk
      by_cases hd : setDelete v sid = []
      · simp only [removeUserFromRoom, if_pos rfl, if_pos hd] at hp
        exact hrest p hp
      · simp only [removeUserFromRoom, if_pos rfl, if_neg hd] at hp
        rcases List.mem_cons.mp hp with hp1 | hp1
        · rw [hp1]
          simpa using hd
        · exact hrest p hp1
    · simp only [removeUserFromRoom, if_neg hk] at hp
      rcases List.mem_cons.mp hp with hp1 | hp1
      · rw [hp1]
        exact hinv (k, v) (List.mem_cons_self _ _)
      · exact ih hrest p hp1

theorem mem_regKeys_iff_lookup {rs : Registry} {R : String} :
    R ∈ regKeys rs ↔ ¬ regLookup rs R = none := by
  constructor
  · intro hm he
    exact (regLookup_eq_none_iff.mp he) hm
  · intro hne
    by_contra hnm
    exact hne (regLookup_eq_none_iff.mpr hnm)

/-- C1 counterexample: starting from the well-formed registry state in which
room "r" already holds participant "q", `join("r","p")` followed by
`leave("r","p")` leaves "q" behind — `listMembers("r")` is not empty and "r" is
still an enumerable key — so the claim fails when read over all starting
states. -/
theorem c1_join_then_leave_counterexample :
    WF [("r", ["q"])] ∧
    ¬ (getUsersInRoom "r"
          (removeUserFromRoom "r" "p" (addUserToRoom "r" "p" [("r", ["q"])])) = [] ∧
        "r" ∉ regKeys (removeUserFromRoom "r" "p" (addUserToRoom "r" "p" [("r", ["q"])]))) := by
  decide

/-- C1 (amended): for every room R and participant P, starting from any registry
state in which R is absent from the enumerable keys, `join(R,P)` followed by
`leave(R,P)` makes `listMembers(R)` empty and leaves R absent from the
registry's enumerable keys. -/
theorem c1_join_then_leave (rs : Registry) (R P : String) (h : R ∉ regKeys rs) :
    getUsersInRoom R (removeUserFromRoom R P (addUserToRoom R P rs)) = [] ∧
    R ∉ regKeys (removeUserFromRoom R P (addUserToRoom R P rs)) := by
  have hn : regLookup rs R = none := regLookup_eq_none_iff.mpr h
  have h1 : addUserToRoom R P rs = rs ++ [(R, [P])] := addUserToRoom_of_absent hn
  have h2 : removeUserFromRoom R P (rs ++ [(R, [P])]) = rs :=
    removeUserFromRoom_append_singleton hn
  rw [h1, h2]
  exact ⟨by simp [getUsersInRoom, hn], h⟩

theorem c1_join_then_leave_witness :
    "r" ∉ regKeys [("s", ["q"])] ∧
    (getUsersInRoom "r"
        (removeUserFromRoom "r" "p" (addUserToRoom "r" "p" [("s", ["q"])])) = [] ∧
      "r" ∉ regKeys (removeUserFromRoom "r" "p" (addUserToRoom "r" "p" [("s", ["q"])]))) :=
  ⟨by decide, c1_join_then_leave [("s", ["q"])] "r" "p" (by decide)⟩

/-- C2: the lazy-deletion invariant — every room key of the registry maps to a
non-empty membership set — is preserved by `addUserToRoom` and
`removeUserFromRoom`; `getUsersInRoom` is read-only in `src/rooms.js` and in
this embedding returns a value without producing a new registry, so it
trivially preserves every invariant.  The last conjunct restates the invariant
through the observable operations. -/
theorem c2_nonempty_room_invariant (rs : Registry) (R P : String) (hinv : RegInv rs) :
    RegInv (addUserToRoom R P rs) ∧
    RegInv (removeUserFromRoom R P rs) ∧
    (∀ R', R' ∈ regKeys rs → getUsersInRoom R' rs ≠ []) := by
  refine ⟨regInv_addUserToRoom hinv R P, regInv_removeUserFromRoom hinv R P, ?_⟩
  intro R' hR'
  rcases hl : regLookup rs R' with _ | v
  · exact absurd hR' (regLookup_eq_none_iff.mp hl)
  · have := hinv (R', v) (regLookup_mem hl)
    simpa [getUsersInRoom, hl] using this

theorem c2_nonempty_room_invariant_witness :
    RegInv [("a", ["x"]), ("b", ["y", "z"])] ∧
    (RegInv (addUserToRoom "a" "w" [("a", ["x"]), ("b", ["y", "z"])]) ∧
      RegInv (removeUserFromRoom "a" "w" [("a", ["x"]), ("b", ["y", "z"])]) ∧
      (∀ R', R' ∈ regKeys [("a", ["x"]), ("b", ["y", "z"])] →
        getUsersInRoom R' [("a", ["x"]), ("b", ["y", "z"])] ≠ [])) :=
  ⟨by decide, c2_nonempty_room_invariant [("a", ["x"]), ("b", ["y", "z"])] "a" "w" (by decide)⟩

/-- C3: `join` is idempotent — on a well-formed registry, performing
`addUserToRoom(R,P)` twice consecutively yields the same registry state as
performing it once, and afterwards `listMembers(R)` contains P exactly once. -/
theorem c3_join_idempotent (rs : Registry) (R P : String) (hwf : WF rs) :
    addUserToRoom R P (addUserToRoom R P rs) = addUserToRoom R P rs ∧
    countS P (getUsersInRoom R (addUserToRoom R P rs)) = 1 := by
  refine ⟨addUserToRoom_idem R P rs, ?_⟩
  rw [getUsersInRoom_addUserToRoom_self]
  exact countS_eq_one (setAdd_nodup (getUsersInRoom_nodup hwf) P) (setAdd_mem _ P)

theorem c3_join_idempotent_witness :
    WF [("a", ["x"])] ∧
    (addUserToRoom "a" "p" (addUserToRoom "a" "p" [("a", ["x"])]) =
        addUserToRoom "a" "p" [("a", ["x"])] ∧
      countS "p" (getUsersInRoom "a" (addUserToRoom "a" "p" [("a", ["x"])])) = 1) :=
  ⟨by decide, c3_join_idempotent [("a", ["x"])] "a" "p" (by decide)⟩

/-- C4: registry operations are total and have no failing paths — `leave(R,P)`
when P is not a member of R (in particular when R is unknown, since then the
membership sequence is empty) returns the registry unchanged, and
`listMembers(R)` for an unknown room R returns the empty sequence.  Every
operation of the embedding is a total function, mirroring `src/rooms.js`, which
never throws on its reachable states. -/
theorem c4_total_noop (rs : Registry) (R P : String) (hinv : RegInv rs) :
    (P ∉ getUsersInRoom R rs → removeUserFromRoom R P rs = rs) ∧
    (R ∉ regKeys rs → getUsersInRoom R rs = []) := by
  constructor
  · exact fun h => removeUserFromRoom_of_not_mem hinv h
  · intro h
    simp [getUsersInRoom, regLookup_eq_none_iff.mpr h]

theorem c4_total_noop_witness :
    RegInv [("a", ["x"])] ∧
    ((("p" : String) ∉ getUsersInRoom "b" [("a", ["x"])] →
        removeUserFromRoom "b" "p" [("a", ["x"])] = [("a", ["x"])]) ∧
      (("b" : String) ∉ regKeys [("a", ["x"])] →
        getUsersInRoom "b" [("a", ["x"])] = [])) :=
  ⟨by decide, c4_total_noop [("a", ["x"])] "b" "p" (by decide)⟩

/-- C10: frame property — for distinct rooms R and R', `addUserToRoom(R,P)` and
`removeUserFromRoom(R,P)` leave room R' untouched: `getUsersInRoom(R')` returns
the same sequence before and after, and R' is an enumerable key afterwards iff
it was one before. -/
theorem c10_frame_property (rs : Registry) (R R' P : String) (h : R ≠ R') :
    getUsersInRoom R' (addUserToRoom R P rs) = getUsersInRoom R' rs ∧
    getUsersInRoom R' (removeUserFromRoom R P rs) = getUsersInRoom R' rs ∧
    (R' ∈ regKeys (addUserToRoom R P rs) ↔ R' ∈ regKeys rs) ∧
    (R' ∈ regKeys (removeUserFromRoom R P rs) ↔ R' ∈ regKeys rs) := by
  have ha := @regLookup_addUserToRoom_ne R P R' rs (Ne.symm h)
  have hr := @regLookup_removeUserFromRoom_ne R P R' rs (Ne.symm h)
  refine ⟨by simp [getUsersInRoom, ha], by simp [getUsersInRoom, hr], ?_, ?_⟩
  · rw [mem_regKeys_iff_lookup, mem_regKeys_iff_lookup, ha]
  · rw [mem_regKeys_iff_lookup, mem_regKeys_iff_lookup, hr]

theorem c10_frame_property_witness :
    ("a" : String) ≠ "b" ∧
    (getUsersInRoom "b" (addUserToRoom "a" "p" [("a", ["x"]), ("b", ["y"])]) =
        getUsersInRoom "b" [("a", ["x"]), ("b", ["y"])] ∧
      getUsersInRoom "b" (removeUserFromRoom "a" "p" [("a", ["x"]), ("b", ["y"])]) =
        getUsersInRoom "b" [("a", ["x"]), ("b", ["y"])] ∧
      ("b" ∈ regKeys (addUserToRoom "a" "p" [("a", ["x"]), ("b", ["y"])]) ↔
        "b" ∈ regKeys [("a", ["x"]), ("b", ["y"])]) ∧
      ("b" ∈ regKeys (removeUserFromRoom "a" "p" [("a", ["x"]), ("b", ["y"])]) ↔
        "b" ∈ regKeys [("a", ["x"]), ("b", ["y"])])) :=
  ⟨by decide, c10_frame_property [("a", ["x"]), ("b", ["y"])] "a" "b" "p" (by decide)⟩

-- The socket.io event router of src/server.js.

/-- Raw payload of a WebRTC signaling event: the handlers read only
`data.roomId` (`none` models a missing or undefined field) and forward the
whole object untouched; `body` stands for the remaining fields, which the
router never inspects. -/
structure SignalData where
  roomId : Option String
  body : String
deriving DecidableEq

/-- Payload of an outbound socket.io broadcast: a bare string (`user-joined`
display name, `user-left` socket id), a roster sequence (`room-users`), a chat
record (sender, message, server timestamp), or a forwarded signaling object. -/
inductive Payload where
  | str : String → Payload
  | users : List String → Payload
  | chat : String → String → String → Payload
  | signal : SignalData → Payload
deriving DecidableEq

/-- The socket.io adapter's room table: room name to the set of socket ids in
that room, in join order. -/
abbrev IoRooms := Registry

/-- `socket.join(roomId)`: the socket.io adapter adds the socket id to the
room's set, creating the room on first join — the same map-of-sets update as
`addUserToRoom`. -/
def ioJoin (roomId sid : String) (iomap : IoRooms) : IoRooms :=
  addUserToRoom roomId sid iomap

/-- The socket ids currently in a room according to the socket.io adapter;
empty for an unknown room. -/
def ioMembers (roomId : String) (iomap : IoRooms) : List String :=
  (regLookup iomap roomId).getD []

/-- One outbound delivery: recipient `dest` receives event `event` with
`payload`, fanned out in room `room`. -/
structure Delivery where
  room : String
  dest : String
  event : String
  payload : Payload
deriving DecidableEq

/-- `io.in(roomId).emit(ev, p)`: delivers to every socket in the room, the
sender included.  A missing room identifier (`io.in(undefined)`) targets the
adapter entry for the undefined key, which no socket ever joins, so nobody
receives. -/
def broadcastAll (iomap : IoRooms) (roomId : Option String) (ev : String) (p : Payload) :
    List Delivery :=
  match roomId with
  | none => []
  | some r => (ioMembers r iomap).map (fun m => ⟨r, m, ev, p⟩)

/-- `socket.to(roomId).emit(ev, p)`: delivers to every socket in the room
except the sender; `socket.to(undefined)` reaches nobody. -/
def broadcastExcept (iomap : IoRooms) (roomId : Option String) (sender ev : String)
    (p : Payload) : List Delivery :=
  match roomId with
  | none => []
  | some r => (setDelete (ioMembers r iomap) sender).map (fun m => ⟨r, m, ev, p⟩)

/-- JavaScript `x || d` for an optional string field: both a missing value
(`undefined`) and the empty string are falsy and fall back to the default. -/
def jsOr (s : Option String) (d : String) : String :=
  match s with
  | none => d
  | some v => if v = "" then d else v

/-- The mutable state the router acts on: the `src/rooms.js` registry plus the
socket.io adapter's room table. -/
structure ServerState where
  registry : Registry
  ioRooms : IoRooms
deriving DecidableEq

/-- The `join-room` handler of `src/server.js`: `socket.join(roomId)`,
`addUserToRoom(roomId, socket.id)`, then
`socket.to(roomId).emit('user-joined', username || socket.id)` followed by
`io.in(roomId).emit('room-users', getUsersInRoom(roomId))`. -/
def handleJoinRoom (st : ServerState) (sid roomId : String) (username : Option String) :
    ServerState × List Delivery :=
  let iomap := ioJoin roomId sid st.ioRooms
  let reg := addUserToRoom roomId sid st.registry
  (⟨reg, iomap⟩,
    broadcastExcept iomap (some roomId) sid "user-joined" (.str (jsOr username sid)) ++
      broadcastAll iomap (some roomId) "room-users" (.users (getUsersInRoom roomId reg)))

/-- The `chat-message` handler: no registry mutation;
`io.in(roomId).emit('chat-message', { sender: sender || 'Anonymous', message,
timestamp: new Date().toISOString() })`.  `now` is the value of
`new Date().toISOString()` at dispatch time — an ISO-8601 string assigned by
the server, never empty and never taken from the client payload. -/
def handleChatMessage (st : ServerState) (roomId : Option String) (message : String)
    (sender : Option String) (now : String) : ServerState × List Delivery :=
  (st, broadcastAll st.ioRooms roomId "chat-message"
        (.chat (jsOr sender "Anonymous") message now))

/-- The `offer`, `answer` and `ice-candidate` handlers of `src/server.js`,
which share one body: `socket.to(data.roomId).emit(kind, data)` — no registry
mutation, raw payload forwarded unchanged, sender excluded. -/
def handleSignaling (st : ServerState) (sid kind : String) (data : SignalData) :
    ServerState × List Delivery :=
  (st, broadcastExcept st.ioRooms data.roomId sid kind (.signal data))

/-- The room list computed by the `disconnecting` handler:
`[...socket.rooms].filter((r) => r !== socket.id)` — the rooms whose socket.io
set contains the socket, minus the socket's automatic own-id room. -/
def socketRooms (sid : String) : IoRooms → List String
  | [] => []
  | (k, v) :: rest =>
    if sid ∈ v ∧ k ≠ sid then k :: socketRooms sid rest
    else socketRooms sid rest

/-- The `forEach` body of the `disconnecting` handler, run over the socket's
rooms in order: `removeUserFromRoom(roomId, socket.id)`, then
`socket.to(roomId).emit('user-left', socket.id)` and
`io.in(roomId).emit('room-users', getUsersInRoom(roomId))`.  The socket.io
room table is the pre-disconnect one throughout: sockets leave their adapter
rooms only after `disconnecting` has run. -/
def disconnectCascade (iomap : IoRooms) (sid : String) :
    List String → Registry → Registry × List Delivery
  | [], reg => (reg, [])
  | roomId :: rest, reg =>
    let reg1 := removeUserFromRoom roomId sid reg
    let ds1 := broadcastExcept iomap (some roomId) sid "user-left" (.str sid)
    let ds2 := broadcastAll iomap (some roomId) "room-users"
      (.users (getUsersInRoom roomId reg1))
    let result := disconnectCascade iomap sid rest reg1
    (result.1, ds1 ++ ds2 ++ result.2)

/-- The `disconnecting` handler of `src/server.js`: the leave-cascade over
every room the socket belongs to. -/
def handleDisconnecting (st : ServerState) (sid : String) : ServerState × List Delivery :=
  let result := disconnectCascade st.ioRooms sid (socketRooms sid st.ioRooms) st.registry
  (⟨result.1, st.ioRooms⟩, result.2)

/-- Occurrence count of one delivery in a delivery log. -/
def countD (d : Delivery) : List Delivery → Nat
  | [] => 0
  | x :: rest => (if x = d then 1 else 0) + countD d rest

-- Broadcast helper lemmas.

theorem mem_broadcastExcept {iomap : IoRooms} {r sender ev : String} {p : Payload}
    {m : String} (hm : m ∈ ioMembers r iomap) (hne : m ≠ sender) :
    Delivery.mk r m ev p ∈ broadcastExcept iomap (some r) sender ev p := by
  simp only [broadcastExcept, List.mem_map]
  exact ⟨m, mem_setDelete.mpr ⟨hm, hne⟩, rfl⟩

theorem broadcastExcept_dest {iomap : IoRooms} {r sender ev : String} {p : Payload}
    {d : Delivery} (hd : d ∈ broadcastExcept iomap (some r) sender ev p) :
    d.dest ≠ sender ∧ d.event = ev ∧ d.payload = p ∧ d.room = r := by
  simp only [broadcastExcept, List.mem_map] at hd
  obtain ⟨m, hm, rfl⟩ := hd
  exact ⟨(mem_setDelete.mp hm).2, rfl, rfl, rfl⟩

theorem mem_broadcastAll {iomap : IoRooms} {r ev : String} {p : Payload}
    {m : String} (hm : m ∈ ioMembers r iomap) :
    Delivery.mk r m ev p ∈ broadcastAll iomap (some r) ev p := by
  simp only [broadcastAll, List.mem_map]
  exact ⟨m, hm, rfl⟩

theorem broadcastAll_fields {iomap : IoRooms} {r ev : String} {p : Payload}
    {d : Delivery} (hd : d ∈ broadcastAll iomap (some r) ev p) :
    d.room = r ∧ d.event = ev ∧ d.payload = p := by
  simp only [broadcastAll, List.mem_map] at hd
  obtain ⟨m, _, rfl⟩ := hd
  exact ⟨rfl, rfl, rfl⟩

/-- C9: a signaling event whose room identifier is missing is a silent no-op —
the handler leaves the whole server state (registry included) unchanged and
delivers no broadcast to anyone, so no other session or room is affected. -/
theorem c9_missing_room_noop (st : ServerState) (sid kind : String) (data : SignalData)
    (h : data.roomId = none) :
    handleSignaling st sid kind data = (st, []) := by
  simp [handleSignaling, broadcastExcept, h]

theorem c9_missing_room_noop_witness :
    (SignalData.mk none "sdp").roomId = none ∧
    handleSignaling ⟨[("a", ["x"])], [("a", ["x"])]⟩ "x" "offer" (SignalData.mk none "sdp") =
      (⟨[("a", ["x"])], [("a", ["x"])]⟩, []) :=
  ⟨rfl, c9_missing_room_noop ⟨[("a", ["x"])], [("a", ["x"])]⟩ "x" "offer"
    (SignalData.mk none "sdp") rfl⟩

/-- C7: signaling exclusion and transparency — an `offer`, `answer` or
`ice-candidate` event from session `sid` naming room R is forwarded under the
same event kind with the payload unchanged to every member of R other than
`sid`; no delivery goes to `sid`; and the server state (registry included) is
unchanged. -/
theorem c7_signaling_exclusion (st : ServerState) (sid kind : String) (data : SignalData)
    (R : String) (hkind : kind = "offer" ∨ kind = "answer" ∨ kind = "ice-candidate")
    (hroom : data.roomId = some R) :
    (handleSignaling st sid kind data).1 = st ∧
    (∀ m ∈ ioMembers R st.ioRooms, m ≠ sid →
        Delivery.mk R m kind (.signal data) ∈ (handleSignaling st sid kind data).2) ∧
    (∀ d ∈ (handleSignaling st sid kind data).2, d.dest ≠ sid) ∧
    (∀ d ∈ (handleSignaling st sid kind data).2,
        d.event = kind ∧ d.payload = .signal data) := by
  refine ⟨rfl, ?_, ?_, ?_⟩
  · intro m hm hne
    simp only [handleSignaling, hroom]
    exact mem_broadcastExcept hm hne
  · intro d hd
    simp only [handleSignaling, hroom] at hd
    exact (broadcastExcept_dest hd).1
  · intro d hd
    simp only [handleSignaling, hroom] at hd
    exact ⟨(broadcastExcept_dest hd).2.1, (broadcastExcept_dest hd).2.2.1⟩

theorem c7_signaling_exclusion_witness :
    (("offer" : String) = "offer" ∨ ("offer" : String) = "answer" ∨
      ("offer" : String) = "ice-candidate") ∧
    (SignalData.mk (some "jam1") "sdp").roomId = some "jam1" ∧
    ((handleSignaling ⟨[("jam1", ["s1", "s2", "s3"])], [("jam1", ["s1", "s2", "s3"])]⟩
          "s1" "offer" (SignalData.mk (some "jam1") "sdp")).1 =
        ⟨[("jam1", ["s1", "s2", "s3"])], [("jam1", ["s1", "s2", "s3"])]⟩ ∧
      (∀ m ∈ ioMembers "jam1" (⟨[("jam1", ["s1", "s2", "s3"])],
            [("jam1", ["s1", "s2", "s3"])]⟩ : ServerState).ioRooms, m ≠ "s1" →
          Delivery.mk "jam1" m "offer" (.signal (SignalData.mk (some "jam1") "sdp")) ∈
            (handleSignaling ⟨[("jam1", ["s1", "s2", "s3"])], [("jam1", ["s1", "s2", "s3"])]⟩
              "s1" "offer" (SignalData.mk (some "jam1") "sdp")).2) ∧
      (∀ d ∈ (handleSignaling ⟨[("jam1", ["s1", "s2", "s3"])], [("jam1", ["s1", "s2", "s3"])]⟩
            "s1" "offer" (SignalData.mk (some "jam1") "sdp")).2, d.dest ≠ "s1") ∧
      (∀ d ∈ (handleSignaling ⟨[("jam1", ["s1", "s2", "s3"])], [("jam1", ["s1", "s2", "s3"])]⟩
            "s1" "offer" (SignalData.mk (some "jam1") "sdp")).2,
          d.event = "offer" ∧ d.payload = .signal (SignalData.mk (some "jam1") "sdp"))) :=
  ⟨Or.inl rfl, rfl,
    c7_signaling_exclusion ⟨[("jam1", ["s1", "s2", "s3"])], [("jam1", ["s1", "s2", "s3"])]⟩
      "s1" "offer" (SignalData.mk (some "jam1") "sdp") "jam1" (Or.inl rfl) rfl⟩

/-- C8 counterexample: a chat event whose sender field is supplied as the empty
string is broadcast with sender "Anonymous", not the supplied value — the
fallback `sender || 'Anonymous'` in `src/server.js` also fires on the empty
string — so the claim's "sender field equal to s when supplied" fails at
s = "". -/
theorem c8_chat_echo_counterexample :
    (Delivery.mk "r" "a" "chat-message" (.chat "Anonymous" "hi" "2025-01-01T00:00:00.000Z")
        ∈ (handleChatMessage ⟨[], [("r", ["a", "b"])]⟩ (some "r") "hi" (some "")
            "2025-01-01T00:00:00.000Z").2) ∧
    Delivery.mk "r" "a" "chat-message" (.chat "" "hi" "2025-01-01T00:00:00.000Z")
        ∉ (handleChatMessage ⟨[], [("r", ["a", "b"])]⟩ (some "r") "hi" (some "")
            "2025-01-01T00:00:00.000Z").2 := by
  decide

/-- C8 (amended): a chat event with message `msg`, optional sender and target
room R is broadcast — with the server state unchanged — as a `chat-message` to
every member of R, the sending session included, carrying the original
message, a non-empty server-assigned dispatch timestamp (`now` is the value of
`new Date().toISOString()`, never taken from the client payload) and sender
field `sender || "Anonymous"`: the supplied sender when it is non-empty, and
"Anonymous" when it is absent or empty. -/
theorem c8_chat_echo (st : ServerState) (R msg : String) (sender : Option String)
    (now sid : String) (hmem : sid ∈ ioMembers R st.ioRooms) (hnow : now ≠ "") :
    (handleChatMessage st (some R) msg sender now).1 = st ∧
    (∀ m ∈ ioMembers R st.ioRooms,
        Delivery.mk R m "chat-message" (.chat (jsOr sender "Anonymous") msg now)
          ∈ (handleChatMessage st (some R) msg sender now).2) ∧
    Delivery.mk R sid "chat-message" (.chat (jsOr sender "Anonymous") msg now)
        ∈ (handleChatMessage st (some R) msg sender now).2 ∧
    (∀ s, sender = some s → s ≠ "" → jsOr sender "Anonymous" = s) ∧
    (sender = none → jsOr sender "Anonymous" = "Anonymous") ∧
    now ≠ "" := by
  have hall : ∀ m ∈ ioMembers R st.ioRooms,
      Delivery.mk R m "chat-message" (.chat (jsOr sender "Anonymous") msg now)
        ∈ (handleChatMessage st (some R) msg sender now).2 := by
    intro m hm
    exact mem_broadcastAll hm
  refine ⟨rfl, hall, hall sid hmem, ?_, ?_, hnow⟩
  · intro s hs hne
    subst hs
    simp [jsOr, hne]
  · intro hs
    subst hs
    rfl

theorem c8_chat_echo_witness :
    ("alice" : String) ∈ ioMembers "jam1"
        (⟨[("jam1", ["alice", "bob"])], [("jam1", ["alice", "bob"])]⟩ : ServerState).ioRooms ∧
    ("2025-01-01T00:00:00.000Z" : String) ≠ "" ∧
    ((handleChatMessage ⟨[("jam1", ["alice", "bob"])], [("jam1", ["alice", "bob"])]⟩
          (some "jam1") "hi" (some "alice") "2025-01-01T00:00:00.000Z").1 =
        ⟨[("jam1", ["alice", "bob"])], [("jam1", ["alice", "bob"])]⟩ ∧
      (∀ m ∈ ioMembers "jam1"
            (⟨[("jam1", ["alice", "bob"])], [("jam1", ["alice", "bob"])]⟩ : ServerState).ioRooms,
          Delivery.mk "jam1" m "chat-message"
              (.chat (jsOr (some "alice") "Anonymous") "hi" "2025-01-01T00:00:00.000Z")
            ∈ (handleChatMessage ⟨[("jam1", ["alice", "bob"])], [("jam1", ["alice", "bob"])]⟩
                (some "jam1") "hi" (some "alice") "2025-01-01T00:00:00.000Z").2) ∧
      Delivery.mk "jam1" "alice" "chat-message"
          (.chat (jsOr (some "alice") "Anonymous") "hi" "2025-01-01T00:00:00.000Z")
          ∈ (handleChatMessage ⟨[("jam1", ["alice", "bob"])], [("jam1", ["alice", "bob"])]⟩
              (some "jam1") "hi" (some "alice") "2025-01-01T00:00:00.000Z").2 ∧
      (∀ s, (some "alice" : Option String) = some s → s ≠ "" →
          jsOr (some "alice") "Anonymous" = s) ∧
      ((some "alice" : Option String) = none → jsOr (some "alice") "Anonymous" = "Anonymous") ∧
      ("2025-01-01T00:00:00.000Z" : String) ≠ "") :=
  ⟨by decide, by decide,
    c8_chat_echo ⟨[("jam1", ["alice", "bob"])], [("jam1", ["alice", "bob"])]⟩
      "jam1" "hi" (some "alice") "2025-01-01T00:00:00.000Z" "alice" (by decide) (by decide)⟩

/-- C6 counterexample: when the second joiner supplies the empty string as
displayName, the `user-joined` broadcast carries the session identifier rather
than the supplied (empty) displayName — `username || socket.id` in
`src/server.js` also falls back on the empty string — so the claim's
"presence-joined carrying displayName" fails for a supplied empty
displayName. -/
theorem c6_join_roster_counterexample :
    (Delivery.mk "r" "s1" "user-joined" (.str "s2")
        ∈ (handleJoinRoom (handleJoinRoom ⟨[], []⟩ "s1" "r" none).1 "s2" "r" (some "")).2) ∧
    Delivery.mk "r" "s1" "user-joined" (.str "")
        ∉ (handleJoinRoom (handleJoinRoom ⟨[], []⟩ "s1" "r" none).1 "s2" "r" (some "")).2 := by
  decide

/-- C6 (amended): on `join-room`, the router performs `addUserToRoom` on the
registry, broadcasts `user-joined` carrying `displayName || sessionId` (the
displayName when supplied and non-empty, the session identifier when absent or
empty) to the other room members and not to the joiner, and then broadcasts a
`room-users` roster snapshot whose content is the full current membership
`getUsersInRoom(room)` to the entire room including the joiner; after sessions
S1 and S2 join a previously absent room, the roster snapshot both receive is
set-equal to {S1, S2}. -/
theorem c6_join_roster (st : ServerState) (R S1 S2 : String) (u1 u2 : Option String)
    (hreg : regLookup st.registry R = none) (hio : regLookup st.ioRooms R = none)
    (hne : S1 ≠ S2) :
    (handleJoinRoom (handleJoinRoom st S1 R u1).1 S2 R u2).1.registry =
        addUserToRoom R S2 (addUserToRoom R S1 st.registry) ∧
    Delivery.mk R S1 "user-joined" (.str (jsOr u2 S2))
        ∈ (handleJoinRoom (handleJoinRoom st S1 R u1).1 S2 R u2).2 ∧
    (∀ d ∈ (handleJoinRoom (handleJoinRoom st S1 R u1).1 S2 R u2).2,
        d.event = "user-joined" → d.dest ≠ S2) ∧
    Delivery.mk R S1 "room-users"
        (.users (getUsersInRoom R
          (handleJoinRoom (handleJoinRoom st S1 R u1).1 S2 R u2).1.registry))
        ∈ (handleJoinRoom (handleJoinRoom st S1 R u1).1 S2 R u2).2 ∧
    Delivery.mk R S2 "room-users"
        (.users (getUsersInRoom R
          (handleJoinRoom (handleJoinRoom st S1 R u1).1 S2 R u2).1.registry))
        ∈ (handleJoinRoom (handleJoinRoom st S1 R u1).1 S2 R u2).2 ∧
    (∀ x, x ∈ getUsersInRoom R
          (handleJoinRoom (handleJoinRoom st S1 R u1).1 S2 R u2).1.registry ↔
        (x = S1 ∨ x = S2)) := by
  have hS2 : S2 ∉ [S1] := by simp [Ne.symm hne]
  have hsetAdd : setAdd [S1] S2 = [S1, S2] := by simp [setAdd, Ne.symm hne]
  have hst1 : (handleJoinRoom st S1 R u1).1 =
      ⟨st.registry ++ [(R, [S1])], st.ioRooms ++ [(R, [S1])]⟩ := by
    simp [handleJoinRoom, ioJoin, addUserToRoom_of_absent hreg, addUserToRoom_of_absent hio]
  have hreg2 : (handleJoinRoom (handleJoinRoom st S1 R u1).1 S2 R u2).1.registry =
      st.registry ++ [(R, [S1, S2])] := by
    rw [hst1]
    show addUserToRoom R S2 (st.registry ++ [(R, [S1])]) = _
    rw [addUserToRoom_append_last hreg, hsetAdd]
  have hio2 : (handleJoinRoom (handleJoinRoom st S1 R u1).1 S2 R u2).1.ioRooms =
      st.ioRooms ++ [(R, [S1, S2])] := by
    rw [hst1]
    show ioJoin R S2 (st.ioRooms ++ [(R, [S1])]) = _
    unfold ioJoin
    rw [addUserToRoom_append_last hio, hsetAdd]
  have husers : getUsersInRoom R
      (handleJoinRoom (handleJoinRoom st S1 R u1).1 S2 R u2).1.registry = [S1, S2] := by
    rw [hreg2]
    simp [getUsersInRoom, regLookup_append_last hreg]
  have hioMem : ioMembers R (st.ioRooms ++ [(R, [S1, S2])]) = [S1, S2] := by
    simp [ioMembers, regLookup_append_last hio]
  have hdel : setDelete [S1, S2] S2 = [S1] := by
    simp [setDelete, hne]
  have hds : (handleJoinRoom (handleJoinRoom st S1 R u1).1 S2 R u2).2 =
      [Delivery.mk R S1 "user-joined" (.str (jsOr u2 S2)),
        Delivery.mk R S1 "room-users" (.users [S1, S2]),
        Delivery.mk R S2 "room-users" (.users [S1, S2])] := by
    rw [hst1]
    show broadcastExcept (ioJoin R S2 (st.ioRooms ++ [(R, [S1])])) (some R) S2
          "user-joined" (.str (jsOr u2 S2)) ++
        broadcastAll (ioJoin R S2 (st.ioRooms ++ [(R, [S1])])) (some R) "room-users"
          (.users (getUsersInRoom R (addUserToRoom R S2 (st.registry ++ [(R, [S1])])))) = _
    unfold ioJoin
    rw [addUserToRoom_append_last hio, hsetAdd, addUserToRoom_append_last hreg, hsetAdd]
    rw [show getUsersInRoom R (st.registry ++ [(R, [S1, S2])]) = [S1, S2] by
      simp [getUsersInRoom, regLookup_append_last hreg]]
    simp [broadcastExcept, broadcastAll, hioMem, hdel]
  refine ⟨?_, ?_, ?_, ?_, ?_, ?_⟩
  · rw [hst1]
    show addUserToRoom R S2 (st.registry ++ [(R, [S1])]) = _
    rw [addUserToRoom_of_absent hreg]
  · rw [hds]
    simp
  · rw [hds]
    intro d hd hev
    rcases List.mem_cons.mp hd with h1 | hd
    · rw [h1]
      exact hne
    · rcases List.mem_cons.mp hd with h1 | hd
      · rw [h1] at hev
        exact absurd (show ("room-users" : String) = "user-joined" from hev) (by decide)
      · rcases List.mem_cons.mp hd with h1 | hd
        · rw [h1] at hev
          exact absurd (show ("room-users" : String) = "user-joined" from hev) (by decide)
        · simp at hd
  · rw [hds, husers]
    simp
  · rw [hds, husers]
    simp
  · intro x
    rw [husers]
    simp

theorem c6_join_roster_witness :
    regLookup ([] : Registry) "jam1" = none ∧
    regLookup ([] : Registry) "jam1" = none ∧
    ("s1" : String) ≠ "s2" ∧
    ((handleJoinRoom (handleJoinRoom ⟨[], []⟩ "s1" "jam1" (some "alice")).1
          "s2" "jam1" (some "bob")).1.registry =
        addUserToRoom "jam1" "s2" (addUserToRoom "jam1" "s1" ([] : Registry)) ∧
      Delivery.mk "jam1" "s1" "user-joined" (.str (jsOr (some "bob") "s2"))
          ∈ (handleJoinRoom (handleJoinRoom ⟨[], []⟩ "s1" "jam1" (some "alice")).1
              "s2" "jam1" (some "bob")).2 ∧
      (∀ d ∈ (handleJoinRoom (handleJoinRoom ⟨[], []⟩ "s1" "jam1" (some "alice")).1
            "s2" "jam1" (some "bob")).2, d.event = "user-joined" → d.dest ≠ "s2") ∧
      Delivery.mk "jam1" "s1" "room-users"
          (.users (getUsersInRoom "jam1"
            (handleJoinRoom (handleJoinRoom ⟨[], []⟩ "s1" "jam1" (some "alice")).1
              "s2" "jam1" (some "bob")).1.registry))
          ∈ (handleJoinRoom (handleJoinRoom ⟨[], []⟩ "s1" "jam1" (some "alice")).1
              "s2" "jam1" (some "bob")).2 ∧
      Delivery.mk "jam1" "s2" "room-users"
          (.users (getUsersInRoom "jam1"
            (handleJoinRoom (handleJoinRoom ⟨[], []⟩ "s1" "jam1" (some "alice")).1
              "s2" "jam1" (some "bob")).1.registry))
          ∈ (handleJoinRoom (handleJoinRoom ⟨[], []⟩ "s1" "jam1" (some "alice")).1
              "s2" "jam1" (some "bob")).2 ∧
      (∀ x, x ∈ getUsersInRoom "jam1"
            (handleJoinRoom (handleJoinRoom ⟨[], []⟩ "s1" "jam1" (some "alice")).1
              "s2" "jam1" (some "bob")).1.registry ↔ (x = "s1" ∨ x = "s2"))) :=
  ⟨rfl, rfl, by decide,
    c6_join_roster ⟨[], []⟩ "jam1" "s1" "s2" (some "alice") (some "bob") rfl rfl (by decide)⟩

-- Counting and cascade lemmas for the disconnection claim.

theorem countD_append (d : Delivery) (l1 l2 : List Delivery) :
    countD d (l1 ++ l2) = countD d l1 + countD d l2 := by
  induction l1 with
  | nil => simp [countD]
  | cons x rest ih =>
    simp only [List.cons_append, countD, List.append_eq]
    rw [ih]
    omega

theorem countD_eq_zero {d : Delivery} {ds : List Delivery} (h : ∀ x ∈ ds, x ≠ d) :
    countD d ds = 0 := by
  induction ds with
  | nil => rfl
  | cons x rest ih =>
    simp [countD, h x (List.mem_cons_self _ _),
      ih (fun y hy => h y (List.mem_cons_of_mem _ hy))]

theorem countD_map_dest (r ev : String) (p : Payload) (m : String) (l : List String) :
    countD (Delivery.mk r m ev p) (l.map (fun x => Delivery.mk r x ev p)) = countS m l := by
  induction l with
  | nil => rfl
  | cons x rest ih =>
    simp only [List.map_cons, countD, countS, ih, Delivery.mk.injEq, true_and, and_true]

theorem ioMembers_nodup {iomap : IoRooms} {r : String} (hwf : WF iomap) :
    (ioMembers r iomap).Nodup := by
  unfold ioMembers
  cases hl : regLookup iomap r with
  | none => simp
  | some v => simpa using (hwf.2 (r, v) (regLookup_mem hl)).1

theorem socketRooms_sublist (sid : String) (iomap : IoRooms) :
    (socketRooms sid iomap).Sublist (regKeys iomap) := by
  induction iomap with
  | nil => simp [socketRooms, regKeys]
  | cons p rest ih =>
    obtain ⟨k, v⟩ := p
    by_cases hc : sid ∈ v ∧ k ≠ sid
    · simpa [socketRooms, hc, regKeys] using ih.cons₂ k
    · simp only [socketRooms, if_neg hc, regKeys, List.map_cons]
      exact ih.cons k

theorem socketRooms_nodup {sid : String} {iomap : IoRooms}
    (h : (regKeys iomap).Nodup) : (socketRooms sid iomap).Nodup :=
  h.sublist (socketRooms_sublist sid iomap)

theorem regKeys_removeUserFromRoom_sublist (roomId sid : String) (rs : Registry) :
    (regKeys (removeUserFromRoom roomId sid rs)).Sublist (regKeys rs) := by
  induction rs with
  | nil => simp [removeUserFromRoom, regKeys]
  | cons p rest ih =>
    obtain ⟨k, v⟩ := p
    by_cases hk : k = roomId
    · subst hk
      by_cases hd : setDelete v sid = []
      · simp only [removeUserFromRoom, if_pos rfl, if_pos hd, regKeys, List.map_cons]
        exact (List.Sublist.refl _).cons k
      · simp only [removeUserFromRoom, if_pos rfl, if_neg hd, regKeys, List.map_cons]
        exact (List.Sublist.refl _).cons₂ k
    · simp only [removeUserFromRoom, if_neg hk, regKeys, List.map_cons]
      exact ih.cons₂ k

theorem regKeys_nodup_remove {roomId sid : String} {rs : Registry}
    (h : (regKeys rs).Nodup) : (regKeys (removeUserFromRoom roomId sid rs)).Nodup :=
  h.sublist (regKeys_removeUserFromRoom_sublist roomId sid rs)

theorem not_mem_getUsersInRoom_remove {roomId sid : String} {rs : Registry}
    (h : (regKeys rs).Nodup) :
    sid ∉ getUsersInRoom roomId (removeUserFromRoom roomId sid rs) := by
  induction rs with
  | nil => simp [removeUserFromRoom, getUsersInRoom, regLookup]
  | cons p rest ih =>
    obtain ⟨k, v⟩ := p
    simp only [regKeys, List.map_cons, List.nodup_cons] at h
    by_cases hk : k = roomId
    · subst hk
      by_cases hd : setDelete v sid = []
      · simp only [removeUserFromRoom, if_pos rfl, if_pos hd]
        have hnone : regLookup rest k = none :=
          regLookup_eq_none_iff.mpr (by simpa [regKeys] using h.1)
        simp [getUsersInRoom, hnone]
      · simp only [removeUserFromRoom, if_pos rfl, if_neg hd, getUsersInRoom, regLookup,
          if_pos rfl, Option.getD_some]
        exact fun hc => (mem_setDelete.mp hc).2 rfl
    · simp only [removeUserFromRoom, if_neg hk, getUsersInRoom, regLookup, if_neg hk]
      exact ih h.2

theorem disconnectCascade_room_mem {iomap : IoRooms} {sid : String} {L : List String}
    {reg : Registry} {d : Delivery} (hd : d ∈ (disconnectCascade iomap sid L reg).2) :
    d.room ∈ L := by
  induction L generalizing reg with
  | nil => simp [disconnectCascade] at hd
  | cons r rest ih =>
    simp only [disconnectCascade, List.mem_append] at hd
    rcases hd with (hd | hd) | hd
    · rw [(broadcastExcept_dest hd).2.2.2]
      exact List.mem_cons_self _ _
    · rw [(broadcastAll_fields hd).1]
      exact List.mem_cons_self _ _
    · exact List.mem_cons_of_mem _ (ih hd)

theorem disconnectCascade_excludes {iomap : IoRooms} {sid : String} {L : List String}
    {reg : Registry} {d : Delivery} (hd : d ∈ (disconnectCascade iomap sid L reg).2) :
    d.event = "user-left" → d.dest ≠ sid := by
  induction L generalizing reg with
  | nil => simp [disconnectCascade] at hd
  | cons r rest ih =>
    simp only [disconnectCascade, List.mem_append] at hd
    rcases hd with (hd | hd) | hd
    · intro _
      exact (broadcastExcept_dest hd).1
    · intro hev
      rw [(broadcastAll_fields hd).2.1] at hev
      exact absurd hev (by decide)
    · exact ih hd

theorem disconnectCascade_lookup_not_mem {iomap : IoRooms} {sid : String} {L : List String}
    {reg : Registry} {r : String} (hr : r ∉ L) :
    regLookup (disconnectCascade iomap sid L reg).1 r = regLookup reg r := by
  induction L generalizing reg with
  | nil => rfl
  | cons a rest ih =>
    simp only [List.mem_cons, not_or] at hr
    simp only [disconnectCascade]
    rw [ih hr.2, regLookup_removeUserFromRoom_ne _ hr.1]

theorem disconnectCascade_not_mem {iomap : IoRooms} {sid : String} {L : List String}
    {reg : Registry} (hkeys : (regKeys reg).Nodup) (hL : L.Nodup) {r : String} (hr : r ∈ L) :
    sid ∉ getUsersInRoom r (disconnectCascade iomap sid L reg).1 := by
  induction L generalizing reg with
  | nil => simp at hr
  | cons a rest ih =>
    simp only [List.nodup_cons] at hL
    rcases List.mem_cons.mp hr with rfl | hr'
    · have hlook : regLookup (disconnectCascade iomap sid rest
          (removeUserFromRoom r sid reg)).1 r =
          regLookup (removeUserFromRoom r sid reg) r :=
        disconnectCascade_lookup_not_mem hL.1
      simp only [disconnectCascade, getUsersInRoom, hlook]
      exact not_mem_getUsersInRoom_remove hkeys
    · simp only [disconnectCascade]
      exact ih (regKeys_nodup_remove hkeys) hL.2 hr'

theorem disconnectCascade_count {iomap : IoRooms} {sid : String} {L : List String}
    {reg : Registry} {r m : String} (hL : L.Nodup) (hr : r ∈ L)
    (hm : m ∈ ioMembers r iomap) (hms : m ≠ sid) (hnd : (ioMembers r iomap).Nodup) :
    countD (Delivery.mk r m "user-left" (.str sid))
      (disconnectCascade iomap sid L reg).2 = 1 := by
  induction L generalizing reg with
  | nil => simp at hr
  | cons a rest ih =>
    simp only [List.nodup_cons] at hL
    simp only [disconnectCascade, countD_append]
    rcases List.mem_cons.mp hr with rfl | hr'
    · have h1 : countD (Delivery.mk r m "user-left" (.str sid))
          (broadcastExcept iomap (some r) sid "user-left" (.str sid)) = 1 := by
        simp only [broadcastExcept]
        rw [countD_map_dest]
        exact countS_eq_one (setDelete_nodup hnd sid) (mem_setDelete.mpr ⟨hm, hms⟩)
      have h2 : countD (Delivery.mk r m "user-left" (.str sid))
          (broadcastAll iomap (some r) "room-users"
            (.users (getUsersInRoom r (removeUserFromRoom r sid reg)))) = 0 := by
        apply countD_eq_zero
        intro x hx he
        have hxe := (broadcastAll_fields hx).2.1
        rw [he] at hxe
        exact absurd (show ("user-left" : String) = "room-users" from hxe) (by decide)
      have h3 : countD (Delivery.mk r m "user-left" (.str sid))
          (disconnectCascade iomap sid rest (removeUserFromRoom r sid reg)).2 = 0 := by
        apply countD_eq_zero
        intro x hx he
        have hxr := disconnectCascade_room_mem hx
        rw [he] at hxr
        exact hL.1 hxr
      rw [h1, h2, h3]
    · have har : a ≠ r := fun he => hL.1 (he ▸ hr')
      have h1 : countD (Delivery.mk r m "user-left" (.str sid))
          (broadcastExcept iomap (some a) sid "user-left" (.str sid)) = 0 := by
        apply countD_eq_zero
        intro x hx he
        have hxr := (broadcastExcept_dest hx).2.2.2
        rw [he] at hxr
        exact har (show (r : String) = a from hxr).symm
      have h2 : countD (Delivery.mk r m "user-left" (.str sid))
          (broadcastAll iomap (some a) "room-users"
            (.users (getUsersInRoom a (removeUserFromRoom a sid reg)))) = 0 := by
        apply countD_eq_zero
        intro x hx he
        have hxr := (broadcastAll_fields hx).1
        rw [he] at hxr
        exact har (show (r : String) = a from hxr).symm
      rw [h1, h2, ih hL.2 hr']

/-- C5: disconnection cascade — on `disconnecting`, for every room the session
belongs to (per the socket.io room table, the automatic own-id room excluded),
the session is removed from that room's registry membership, so `listMembers`
of each such room no longer contains it; every other member of each such room
receives exactly one `user-left` broadcast carrying the session identifier for
that room; and no `user-left` broadcast is delivered to the disconnecting
session itself. -/
theorem c5_disconnect_cascade (st : ServerState) (sid : String)
    (hio : WF st.ioRooms) (hreg : (regKeys st.registry).Nodup) :
    (∀ r ∈ socketRooms sid st.ioRooms,
        sid ∉ getUsersInRoom r (handleDisconnecting st sid).1.registry) ∧
    (∀ r ∈ socketRooms sid st.ioRooms, ∀ m ∈ ioMembers r st.ioRooms, m ≠ sid →
        countD (Delivery.mk r m "user-left" (.str sid))
          (handleDisconnecting st sid).2 = 1) ∧
    (∀ d ∈ (handleDisconnecting st sid).2, d.event = "user-left" → d.dest ≠ sid) := by
  have hnodupL : (socketRooms sid st.ioRooms).Nodup := socketRooms_nodup hio.1
  refine ⟨?_, ?_, ?_⟩
  · intro r hr
    exact disconnectCascade_not_mem hreg hnodupL hr
  · intro r hr m hm hms
    exact disconnectCascade_count hnodupL hr hm hms (ioMembers_nodup hio)
  · intro d hd
    exact disconnectCascade_excludes hd

theorem c5_disconnect_cascade_witness :
    WF [("A", ["s", "m"]), ("B", ["s", "n"])] ∧
    (regKeys [("A", ["s", "m"]), ("B", ["s", "n"])]).Nodup ∧
    ((∀ r ∈ socketRooms "s"
          (⟨[("A", ["s", "m"]), ("B", ["s", "n"])],
            [("A", ["s", "m"]), ("B", ["s", "n"])]⟩ : ServerState).ioRooms,
        ("s" : String) ∉ getUsersInRoom r
          (handleDisconnecting ⟨[("A", ["s", "m"]), ("B", ["s", "n"])],
            [("A", ["s", "m"]), ("B", ["s", "n"])]⟩ "s").1.registry) ∧
      (∀ r ∈ socketRooms "s"
          (⟨[("A", ["s", "m"]), ("B", ["s", "n"])],
            [("A", ["s", "m"]), ("B", ["s", "n"])]⟩ : ServerState).ioRooms,
        ∀ m ∈ ioMembers r
          (⟨[("A", ["s", "m"]), ("B", ["s", "n"])],
            [("A", ["s", "m"]), ("B", ["s", "n"])]⟩ : ServerState).ioRooms, m ≠ "s" →
          countD (Delivery.mk r m "user-left" (.str "s"))
            (handleDisconnecting ⟨[("A", ["s", "m"]), ("B", ["s", "n"])],
              [("A", ["s", "m"]), ("B", ["s", "n"])]⟩ "s").2 = 1) ∧
      (∀ d ∈ (handleDisconnecting ⟨[("A", ["s", "m"]), ("B", ["s", "n"])],
            [("A", ["s", "m"]), ("B", ["s", "n"])]⟩ "s").2,
        d.event = "user-left" → d.dest ≠ "s")) :=
  ⟨by decide, by decide,
    c5_disconnect_cascade ⟨[("A", ["s", "m"]), ("B", ["s", "n"])],
      [("A", ["s", "m"]), ("B", ["s", "n"])]⟩ "s" (by decide) (by decide)⟩
